import Mathlib

/- Shallow embedding of the launch-bar repository: configuration types,
   preset resolution, preset detection, script-type resolution, script file
   dispatch, and the command-runner state machine, with theorems checking the
   specification's claims against these definitions.

   Conventions of the embedding:
   - Filesystem paths are Strings in normal form (no trailing or duplicated
     separators); the filesystem itself is passed in as a function, either an
     existence predicate (String to Bool) for preset detection or a content
     map (String to Option String) for script file reads.
   - Rust HashMap-based deduplication is modelled as an association list
     processed in insertion order; all theorems about the resolver are stated
     up to membership and pairwise-distinctness, which do not depend on the
     (unspecified) HashMap iteration order.
   - External effects (clipboard reads, process spawning, worker threads) are
     modelled as explicit outcome parameters and an event-step relation. -/

namespace LaunchBar

/-- Prefix test on strings, modelling Rust str::starts_with. Defined over the
character list so that proofs and witnesses can evaluate it. -/
def strStarts (s pat : String) : Bool := pat.data.isPrefixOf s.data

/-- Suffix test on strings, modelling Rust str::ends_with. -/
def strEnds (s pat : String) : Bool := pat.data.isSuffixOf s.data

/-- Lower-casing of a string, modelling Rust str::to_lowercase on the simple
one-character-to-one-character mappings it performs for the config names in
scope. -/
def strLower (s : String) : String := String.mk (s.data.map Char.toLower)

/-- Removal of the first n characters, modelling Rust slicing past a matched
single-character marker. -/
def strDrop (s : String) (n : Nat) : String := String.mk (s.data.drop n)

/-- Removal of the final character, modelling the Rust slice
expanded[..expanded.len() - 1] applied below a trailing-star check. -/
def strDropLast (s : String) : String := String.mk s.data.dropLast

/-- Occurrence test for a nonempty pattern anywhere in a string, modelling
Rust str::contains. -/
def hasSub (pat : List Char) : List Char → Bool
  | [] => pat.isEmpty
  | c :: cs => pat.isPrefixOf (c :: cs) || hasSub pat cs

/-- Fuel-indexed left-to-right replacement of every non-overlapping
occurrence of a nonempty pattern, modelling Rust str::replace; the fuel is
instantiated with the string length, which bounds the number of steps. -/
def replGo (pat rep : List Char) : Nat → List Char → List Char
  | _, [] => []
  | 0, l => l
  | Nat.succ fuel, c :: cs =>
    if pat.isPrefixOf (c :: cs) && !pat.isEmpty then
      rep ++ replGo pat rep fuel ((c :: cs).drop pat.length)
    else c :: replGo pat rep fuel cs

/-- Split of a character list at every occurrence of a separator character,
modelling Rust str::split for the path-component computation. -/
def splitChar (sep : Char) : List Char → List (List Char)
  | [] => [[]]
  | c :: cs =>
    match splitChar sep cs with
    | [] => [[c]]
    | h :: t => if c = sep then [] :: h :: t else (c :: h) :: t

/-- Script language type, from script/mod.rs (enum ScriptType: Rhai is the
serde and Default default). -/
inductive ScriptType where
  | Rhai
  | Lua
  deriving DecidableEq

/-- Detection of a script language from a file extension, from
ScriptType::from_extension in script/mod.rs. -/
def ScriptType.from_extension (path : String) : Option ScriptType :=
  if strEnds path ".rhai" then some ScriptType.Rhai
  else if strEnds path ".lua" then some ScriptType.Lua
  else none

/-- Configuration for script defaults, from struct ScriptConfig in
script/mod.rs. -/
structure ScriptConfig where
  global_default : Option ScriptType
  preset_default : Option ScriptType
  deriving DecidableEq

/-- Script-type resolution, from resolve_script_type in script/mod.rs:
explicit type, then file-reference extension, then preset default, then
global default, then Rhai. -/
def resolve_script_type (explicit : Option ScriptType) (script : String)
    (config : ScriptConfig) : ScriptType :=
  match explicit with
  | some t => t
  | none =>
    match (if strStarts script "@" then ScriptType.from_extension (strDrop script 1) else none) with
    | some t => t
    | none =>
      match config.preset_default with
      | some t => t
      | none =>
        match config.global_default with
        | some t => t
        | none => ScriptType.Rhai

/-- Substring test, modelling Rust str::contains for the clipboard
placeholder. -/
def containsSub (s pat : String) : Bool :=
  hasSub pat.data s.data

/-- Replacement of every occurrence of a pattern, modelling Rust
str::replace. -/
def replaceAll (s pat rep : String) : String :=
  String.mk (replGo pat.data rep.data s.data.length s.data)

/-- Path join, modelling Rust PathBuf::join on normal-form Unix paths: an
absolute right-hand side replaces the base, otherwise the components are
joined with a single separator. -/
def joinPath (base p : String) : String :=
  if strStarts p "/" then p
  else if base = "" then p
  else if strEnds base "/" then base ++ p
  else base ++ "/" ++ p

/-- Parent directory, modelling Rust Path::parent on normal-form Unix paths:
drops the final component; none for the root or the empty path. -/
def parentDir (p : String) : Option String :=
  if p = "" ∨ p = "/" then none
  else
    let joined := String.mk (List.intercalate ['/'] (splitChar '/' p.data).dropLast)
    if joined = "" ∧ strStarts p "/" then some "/" else some joined

/-- Tilde expansion, modelling shellexpand::tilde: a bare leading tilde (alone
or followed by a separator) is replaced by the home directory, anything else
is left unchanged. -/
def tildeExpand (home p : String) : String :=
  if p = "~" then home
  else if strStarts p "~/" then home ++ strDrop p 1
  else p

/-- Outcome of reading and dispatching a script, from run_script in
script/mod.rs, modelled up to the engine call: an error result when a
referenced file cannot be read, otherwise the pair (script source, working
directory) handed to the script engine. The OS error text of a failed read is
abstracted by the path. -/
def run_script_dispatch (script : String) (cwd : String)
    (fs : String → Option String) : Except String (String × String) :=
  if strStarts script "@" then
    let path := strDrop script 1
    let full_path := if strStarts path "/" then path else joinPath cwd path
    match fs full_path with
    | some content => Except.ok (content, (parentDir full_path).getD cwd)
    | none => Except.error ("Failed to read script file: " ++ full_path)
  else
    Except.ok (script, cwd)

/-- Configuration source, from config/resolver.rs (enum ConfigSource with
derived Ord on the listed order). -/
inductive ConfigSource where
  | Global
  | Project
  | Arg
  | Env
  deriving DecidableEq

/-- Numeric priority rank of a source, matching the derived Ord of
ConfigSource (Global = 0, Project = 1, Arg = 2, Env = 3). -/
def ConfigSource.rank : ConfigSource → Nat
  | ConfigSource.Global => 0
  | ConfigSource.Project => 1
  | ConfigSource.Arg => 2
  | ConfigSource.Env => 3

/-- Command configuration, from config/types.rs. -/
structure CommandConfig where
  name : String
  cmd : Option String := none
  run : Option String := none
  script_type : Option ScriptType := none
  icon : Option String := none
  cwd : Option String := none
  deriving DecidableEq

/-- Preset configuration, from config/types.rs. -/
structure Preset where
  name : String
  detect_file : Option String := none
  cwd_pattern : Option String := none
  base_color : Option String := none
  default_script : Option ScriptType := none
  commands : List CommandConfig := []
  deriving DecidableEq

/-- Predicate for global/fallback presets, from Preset::is_global in
config/types.rs. -/
def Preset.is_global (p : Preset) : Bool :=
  p.detect_file.isNone && p.cwd_pattern.isNone

/-- Window settings, from config/types.rs. -/
structure WindowSettings where
  max_icons : Nat
  opacity : Float
  background_color : Option String
  border : String
  title_bar : String
  accent_line : String
  default_script : Option ScriptType

/-- Default window settings, from the serde defaults in config/types.rs. -/
def WindowSettings.default : WindowSettings :=
  { max_icons := 5
    opacity := 0.8
    background_color := none
    border := "auto"
    title_bar := "auto"
    accent_line := "auto"
    default_script := none }

instance : Inhabited WindowSettings := ⟨WindowSettings.default⟩

/-- Main configuration structure, from config/types.rs. -/
structure Config where
  window : WindowSettings
  presets : List Preset
  commands : List CommandConfig

/-- Reserved name for the preset synthesized from top-level commands, from
config/types.rs. -/
def GLOBAL_PRESET_NAME : String := "[Global]"

/-- Conversion of top-level commands into a synthesized global preset, from
Config::commands_as_preset in config/types.rs. -/
def Config.commands_as_preset (c : Config) : Option Preset :=
  if c.commands.isEmpty then none
  else some
    { name := GLOBAL_PRESET_NAME
      detect_file := none
      cwd_pattern := none
      base_color := c.window.background_color
      default_script := c.window.default_script
      commands := c.commands }

/-- Preset tagged with the source it came from, from struct ResolvedPreset in
config/resolver.rs. -/
structure ResolvedPreset where
  preset : Preset
  source : ConfigSource
  deriving DecidableEq

/-- Deduplication key of a collected preset: its name lower-cased, as in
PresetResolver::resolve. -/
def lowerName (r : ResolvedPreset) : String := strLower r.preset.name

/-- Unified preset resolver state, from struct PresetResolver in
config/resolver.rs. -/
structure PresetResolver where
  presets : List ResolvedPreset
  window : WindowSettings
  explicit_preset : Option (String × ConfigSource)

/-- Fresh resolver, from PresetResolver::new. -/
def PresetResolver.new : PresetResolver :=
  { presets := []
    window := WindowSettings.default
    explicit_preset := none }

/-- Explicit preset selection from a CLI argument, from
PresetResolver::set_arg_preset: always overwrites. -/
def PresetResolver.set_arg_preset (rs : PresetResolver) (name : String) : PresetResolver :=
  { rs with explicit_preset := some (name, ConfigSource.Arg) }

/-- Explicit preset selection from the environment variable, from
PresetResolver::set_env_preset: only set when the current selection is not
from Arg. -/
def PresetResolver.set_env_preset (rs : PresetResolver) (name : String) : PresetResolver :=
  if (rs.explicit_preset.map Prod.snd) ≠ some ConfigSource.Arg then
    { rs with explicit_preset := some (name, ConfigSource.Env) }
  else rs

/-- Window-settings merge, from PresetResolver::merge_window: scalar fields
always overwritten, optional fields only when present in the newer source. -/
def PresetResolver.merge_window (rs : PresetResolver) (nw : WindowSettings) : PresetResolver :=
  { rs with window :=
    { max_icons := nw.max_icons
      opacity := nw.opacity
      background_color :=
        match nw.background_color with
        | some c => some c
        | none => rs.window.background_color
      border := nw.border
      title_bar := nw.title_bar
      accent_line := nw.accent_line
      default_script :=
        match nw.default_script with
        | some s => some s
        | none => rs.window.default_script } }

/-- Collection of a config from a specific source, from
PresetResolver::add_config: merge window settings, append the synthesized
global preset if any, then append all declared presets. -/
def PresetResolver.add_config (rs : PresetResolver) (c : Config)
    (source : ConfigSource) : PresetResolver :=
  let rs1 := rs.merge_window c.window
  let rs2 :=
    match c.commands_as_preset with
    | some gp =>
      { rs1 with presets := rs1.presets ++ [({ preset := gp, source := source } : ResolvedPreset)] }
    | none => rs1
  { rs2 with presets :=
      rs2.presets ++ c.presets.map (fun p => ({ preset := p, source := source } : ResolvedPreset)) }

/-- Collection of the global config, from PresetResolver::add_global. -/
def PresetResolver.add_global (rs : PresetResolver) (c : Config) : PresetResolver :=
  rs.add_config c ConfigSource.Global

/-- Collection of the project config, from PresetResolver::add_project. -/
def PresetResolver.add_project (rs : PresetResolver) (c : Config) : PresetResolver :=
  rs.add_config c ConfigSource.Project

/-- Lookup in the association-list model of the dedup HashMap. -/
def assocFind (m : List (String × ResolvedPreset)) (k : String) : Option ResolvedPreset :=
  match m with
  | [] => none
  | (k', v) :: rest => if k' = k then some v else assocFind rest k

/-- Insertion or in-place replacement in the association-list model of the
dedup HashMap. -/
def assocSet (m : List (String × ResolvedPreset)) (k : String)
    (v : ResolvedPreset) : List (String × ResolvedPreset) :=
  match m with
  | [] => [(k, v)]
  | (k', v') :: rest =>
    if k' = k then (k, v) :: rest else (k', v') :: assocSet rest k v

/-- One step of the dedup loop in PresetResolver::resolve: keep the existing
entry when its source rank is at least the new entry's, otherwise insert the
new entry under the lower-cased name. -/
def dedupStep (m : List (String × ResolvedPreset)) (r : ResolvedPreset) :
    List (String × ResolvedPreset) :=
  let key := lowerName r
  match assocFind m key with
  | some existing =>
    if r.source.rank ≤ existing.source.rank then m else assocSet m key r
  | none => assocSet m key r

/-- Dedup map built by the loop in PresetResolver::resolve. -/
def dedupMap (l : List ResolvedPreset) : List (String × ResolvedPreset) :=
  l.foldl dedupStep []

/-- Values of the dedup map (the surviving presets, before ordering). -/
def dedupValues (l : List ResolvedPreset) : List ResolvedPreset :=
  (dedupMap l).map Prod.snd

/-- Insertion into a source-rank-sorted list, placing the new element after
every element of lower-or-equal rank; building block of the stable
sort_by_key on source used in PresetResolver::resolve. -/
def insertBySource (r : ResolvedPreset) : List ResolvedPreset → List ResolvedPreset
  | [] => [r]
  | x :: xs =>
    if x.source.rank ≤ r.source.rank then x :: insertBySource r xs
    else r :: x :: xs

/-- Stable sort by source rank, modelling Vec::sort_by_key on the source. -/
def sortBySource (l : List ResolvedPreset) : List ResolvedPreset :=
  l.foldl (fun acc r => insertBySource r acc) []

/-- Resolved configuration, from struct ResolvedConfig in
config/resolver.rs. -/
structure ResolvedConfig where
  presets : List ResolvedPreset
  window : WindowSettings
  explicit_preset : Option (String × ConfigSource)

/-- Preset resolution, from PresetResolver::resolve: deduplicate by
lower-cased name keeping the higher-ranked source, then list global presets
(sorted by source) before the others (sorted by source). -/
def PresetResolver.resolve (rs : PresetResolver) : ResolvedConfig :=
  let values := dedupValues rs.presets
  let global_presets := values.filter (fun r => r.preset.is_global)
  let other_presets := values.filter (fun r => !r.preset.is_global)
  { presets := sortBySource global_presets ++ sortBySource other_presets
    window := rs.window
    explicit_preset := rs.explicit_preset }

/-- Detection rule of a single preset, from the loop body of
detect_preset_idx in config/detect.rs: the detect_file exists under the
working directory, or else the tilde-expanded cwd_pattern matches the
working directory (prefix match for a trailing star, exact equality
otherwise). -/
def presetMatches (home : String) (fs : String → Bool) (wd : String) (p : Preset) : Bool :=
  (match p.detect_file with
   | some file => fs (joinPath wd file)
   | none => false)
  ||
  (match p.cwd_pattern with
   | some pat =>
     let expanded := tildeExpand home pat
     if strEnds expanded "*" then strStarts wd (strDropLast expanded)
     else wd = expanded
   | none => false)

/-- Enumerated scan of the preset list, from the indexed loop of
detect_preset_idx. -/
def detectFrom (home : String) (fs : String → Bool) (wd : String) :
    Nat → List Preset → Option Nat
  | _, [] => none
  | i, p :: rest =>
    if presetMatches home fs wd p then some i
    else detectFrom home fs wd (i + 1) rest

/-- Preset detection, from detect_preset_idx in config/detect.rs (the same
loop appears as detect_preset in main.rs): index of the first preset whose
detection rule is satisfied. -/
def detect_preset_idx (home : String) (fs : String → Bool) (wd : String)
    (presets : List Preset) : Option Nat :=
  detectFrom home fs wd 0 presets

/-- Choice of the active configuration file, from the config-loading block of
main in main.rs: the project-local file if it exists, else the global file if
it exists, else a freshly generated example config. The two files are never
merged. -/
def load_active_config (localExists globalExists : Bool)
    (localCfg globalCfg exampleCfg : Config) : Config :=
  if localExists then localCfg
  else if globalExists then globalCfg
  else exampleCfg

/-- Process execution result, from enum ProcessResult in app.rs. -/
inductive ProcessResult where
  | Success
  | Failed
  deriving DecidableEq

/-- Execution-relevant application state, from struct LaunchBarApp in app.rs:
the command list and the three per-slot tracking collections (running shell
children, finished results, running script markers) plus the status line.
Shell child handles are abstracted as natural numbers. -/
structure AppSt where
  commands : List CommandConfig
  runningProcesses : Nat → Option Nat
  processResults : Nat → Option ProcessResult
  runningScripts : Nat → Bool
  lastStatus : Option String
  isError : Bool

/-- Outcome of a synchronous clipboard read, abstracting
arboard::Clipboard. -/
inductive ClipOutcome where
  | ok (text : String)
  | err
  deriving DecidableEq

/-- Outcome of spawning a shell process, abstracting
platform::spawn_shell_command; a successful spawn carries the child
handle. -/
inductive SpawnOutcome where
  | ok (child : Nat)
  | err (msg : String)
  deriving DecidableEq

/-- Clipboard-placeholder expansion step of the shell branch of
LaunchBarApp::run_command: commands not mentioning the placeholder pass
through; otherwise a successful clipboard read substitutes its text and a
failed read aborts the invocation. -/
def expandClipboard (c : String) (clip : ClipOutcome) : Option String :=
  if containsSub c "$clipboard" then
    match clip with
    | ClipOutcome.ok text => some (replaceAll c "$clipboard" text)
    | ClipOutcome.err => none
  else some c

/-- Command invocation, from LaunchBarApp::run_command in app.rs. The two
external effects are passed in as outcome parameters. The returned Bool
records whether a script worker task was dispatched by this invocation. -/
def run_command (st : AppSt) (index : Nat) (clip : ClipOutcome)
    (spawn : SpawnOutcome) : AppSt × Bool :=
  match st.commands[index]? with
  | none => (st, false)
  | some cfg =>
    match cfg.run with
    | some _ =>
      if st.runningScripts index then (st, false)
      else
        ({ st with
            runningScripts := fun i => if i = index then true else st.runningScripts i
            lastStatus := some ("Running: " ++ cfg.name)
            isError := false }, true)
    | none =>
      match cfg.cmd with
      | some c =>
        match expandClipboard c clip with
        | none =>
          ({ st with lastStatus := some "Failed to read clipboard", isError := true }, false)
        | some _ =>
          match spawn with
          | SpawnOutcome.ok child =>
            ({ st with
                processResults := fun i =>
                  if st.processResults i = some ProcessResult.Success then none
                  else st.processResults i
                runningProcesses := fun i =>
                  if i = index then some child else st.runningProcesses i
                lastStatus := some ("Running: " ++ cfg.name)
                isError := false }, false)
          | SpawnOutcome.err e =>
            ({ st with
                lastStatus := some ("Failed: " ++ e)
                isError := true
                processResults := fun i =>
                  if i = index then some ProcessResult.Failed else st.processResults i }, false)
      | none =>
        ({ st with lastStatus := some "No command or script defined", isError := true }, false)

/-- Reconciliation of one delivered script result, from the loop body of
LaunchBarApp::check_scripts in app.rs. -/
def applyScriptResult (st : AppSt) (index : Nat) (success : Bool)
    (msg : String) : AppSt :=
  { st with
    runningScripts := fun i => if i = index then false else st.runningScripts i
    processResults := fun i =>
      if i = index then some (if success then ProcessResult.Success else ProcessResult.Failed)
      else st.processResults i
    lastStatus :=
      match st.commands[index]? with
      | some cmd => some (if success then "Done: " ++ cmd.name else msg)
      | none => st.lastStatus
    isError :=
      match st.commands[index]? with
      | some _ => !success
      | none => st.isError }

/-- Reconciliation of one finished shell process, from the collection loop of
LaunchBarApp::check_processes in app.rs. -/
def applyProcessResult (st : AppSt) (index : Nat) (success : Bool) : AppSt :=
  { st with
    runningProcesses := fun i => if i = index then none else st.runningProcesses i
    processResults := fun i =>
      if i = index then some (if success then ProcessResult.Success else ProcessResult.Failed)
      else st.processResults i
    lastStatus :=
      match st.commands[index]? with
      | some cmd => some ((if success then "Done: " else "Failed: ") ++ cmd.name)
      | none => st.lastStatus
    isError :=
      match st.commands[index]? with
      | some _ => !success
      | none => st.isError }

/-- Whole-system state for the temporal claims: the application state plus
the multiset (as a list) of slot indices with a script worker task in
flight. -/
structure Sys where
  app : AppSt
  tasks : List Nat

/-- Events of the execution model: a user invocation, delivery of a script
worker's result over the channel, and completion of a tracked shell
process. -/
inductive Ev where
  | invoke (index : Nat) (clip : ClipOutcome) (spawn : SpawnOutcome)
  | finishScript (index : Nat) (success : Bool) (message : String)
  | finishProcess (index : Nat) (success : Bool)

/-- One step of the execution model. A script-result delivery only occurs for
a task actually in flight (the channel carries only dispatched results); a
process completion only occurs for a tracked child. -/
def step (s : Sys) (e : Ev) : Sys :=
  match e with
  | Ev.invoke index clip spawn =>
    let r := run_command s.app index clip spawn
    { app := r.1, tasks := if r.2 then index :: s.tasks else s.tasks }
  | Ev.finishScript index success msg =>
    if s.tasks.contains index then
      { app := applyScriptResult s.app index success msg, tasks := s.tasks.erase index }
    else s
  | Ev.finishProcess index success =>
    match s.app.runningProcesses index with
    | some _ => { app := applyProcessResult s.app index success, tasks := s.tasks }
    | none => s

/-- C1: evaluation of the explicit-preset setters at the claimed scenario.
The claim states that when both an environment-variable selection and a
CLI-argument selection are set, in either order, the recorded selection is
the environment-variable name (Env outranks Arg in the documented order
Global < Project < Arg < Env). The code records the Arg name in both orders:
set_arg_preset overwrites unconditionally and set_env_preset refuses to
overwrite an Arg selection, contradicting the priority order documented at
the top of config/resolver.rs. -/
theorem C1_arg_wins_both_orders :
    ((PresetResolver.new.set_env_preset "Prod").set_arg_preset "Dev").explicit_preset
      = some ("Dev", ConfigSource.Arg) ∧
    ((PresetResolver.new.set_arg_preset "Dev").set_env_preset "Prod").explicit_preset
      = some ("Dev", ConfigSource.Arg) := by
  constructor <;> rfl

/-- Global config used for the C3 counterexample: one preset named A and one
top-level fallback command. -/
def c3GlobalCfg : Config :=
  { window := WindowSettings.default
    presets := [{ name := "A" }]
    commands := [{ name := "GTerm", cmd := some "term" }] }

/-- Project-local config used for the C3 counterexample: one preset named B
and no fallback commands. -/
def c3LocalCfg : Config :=
  { window := WindowSettings.default
    presets := [{ name := "B" }]
    commands := [] }

/-- C3 counterexample: with both config files present, the effective
configuration is the project-local file alone — the global file's preset A
is absent and the global fallback commands do not apply, refuting the
claimed two-file merge. -/
theorem C3_local_only_cex :
    (load_active_config true true c3LocalCfg c3GlobalCfg c3GlobalCfg).presets.map Preset.name
      = ["B"] ∧
    (load_active_config true true c3LocalCfg c3GlobalCfg c3GlobalCfg).commands = [] := by
  constructor <;> rfl

/-- C3 (amended): the program's config loading selects exactly one file —
the project-local file whenever it exists, else the global file, else the
generated example — and never merges two files. -/
theorem C3_single_file_loading (lc gc ec : Config) :
    load_active_config true true lc gc ec = lc ∧
    load_active_config true false lc gc ec = lc ∧
    load_active_config false true lc gc ec = gc ∧
    load_active_config false false lc gc ec = ec :=
  ⟨rfl, rfl, rfl, rfl⟩

/-- C5: script-type resolution is total and follows the five priority tiers
in strict order — explicit override, then recognized file extension of an
at-prefixed reference, then preset default, then global default, then Rhai —
and in particular an explicit Lua override beats a .rhai extension, and a
.lua extension beats every default. -/
theorem C5_script_type_resolution :
    (∀ (t : ScriptType) (script : String) (cfg : ScriptConfig),
      resolve_script_type (some t) script cfg = t) ∧
    (∀ (script : String) (cfg : ScriptConfig) (t : ScriptType),
      strStarts script "@" = true →
      ScriptType.from_extension (strDrop script 1) = some t →
      resolve_script_type none script cfg = t) ∧
    (∀ (script : String) (cfg : ScriptConfig) (t : ScriptType),
      (strStarts script "@" = true → ScriptType.from_extension (strDrop script 1) = none) →
      cfg.preset_default = some t →
      resolve_script_type none script cfg = t) ∧
    (∀ (script : String) (cfg : ScriptConfig) (t : ScriptType),
      (strStarts script "@" = true → ScriptType.from_extension (strDrop script 1) = none) →
      cfg.preset_default = none →
      cfg.global_default = some t →
      resolve_script_type none script cfg = t) ∧
    (∀ (script : String) (cfg : ScriptConfig),
      (strStarts script "@" = true → ScriptType.from_extension (strDrop script 1) = none) →
      cfg.preset_default = none →
      cfg.global_default = none →
      resolve_script_type none script cfg = ScriptType.Rhai) ∧
    (∀ cfg : ScriptConfig,
      resolve_script_type (some ScriptType.Lua) "@x.rhai" cfg = ScriptType.Lua) ∧
    (∀ cfg : ScriptConfig,
      resolve_script_type none "@x.lua" cfg = ScriptType.Lua) := by
  refine ⟨fun t script cfg => rfl, ?_, ?_, ?_, ?_, fun cfg => rfl, fun cfg => rfl⟩
  · intro script cfg t h1 h2
    simp [resolve_script_type, h1, h2]
  · intro script cfg t hext hp
    by_cases hs : strStarts script "@"
    · simp [resolve_script_type, hs, hext hs, hp]
    · simp [resolve_script_type, hs, hp]
  · intro script cfg t hext hp hg
    by_cases hs : strStarts script "@"
    · simp [resolve_script_type, hs, hext hs, hp, hg]
    · simp [resolve_script_type, hs, hp, hg]
  · intro script cfg hext hp hg
    by_cases hs : strStarts script "@"
    · simp [resolve_script_type, hs, hext hs, hp, hg]
    · simp [resolve_script_type, hs, hp, hg]

/-- C5 witness: the two pinned equations of the claim at a configuration
whose defaults disagree with the outcome. -/
theorem C5_script_type_resolution_witness :
    resolve_script_type (some ScriptType.Lua) "@x.rhai"
      { global_default := some ScriptType.Rhai, preset_default := some ScriptType.Rhai }
      = ScriptType.Lua ∧
    resolve_script_type none "@x.lua"
      { global_default := some ScriptType.Rhai, preset_default := some ScriptType.Rhai }
      = ScriptType.Lua :=
  ⟨C5_script_type_resolution.2.2.2.2.2.1 _, C5_script_type_resolution.2.2.2.2.2.2 _⟩

/-- C9: invoking a command with neither a cmd nor a run field sets the error
status "No command or script defined" with the error flag raised, changes
nothing else (no process spawned, no task dispatched, no result recorded, so
the slot stays Idle), and is never a silent no-op. -/
theorem C9_missing_command_error (st : AppSt) (index : Nat) (cfg : CommandConfig)
    (clip : ClipOutcome) (spawn : SpawnOutcome)
    (h1 : st.commands[index]? = some cfg) (h2 : cfg.run = none) (h3 : cfg.cmd = none) :
    run_command st index clip spawn =
      ({ st with lastStatus := some "No command or script defined", isError := true }, false) := by
  simp [run_command, h1, h2, h3]

/-- Application state used by the C9 witness. -/
def c9St : AppSt :=
  { commands := [{ name := "Empty" }]
    runningProcesses := fun _ => none
    processResults := fun _ => none
    runningScripts := fun _ => false
    lastStatus := none
    isError := false }

/-- C9 witness: the theorem evaluated at a concrete one-command state. -/
theorem C9_missing_command_error_witness :
    run_command c9St 0 ClipOutcome.err (SpawnOutcome.err "e") =
      ({ c9St with lastStatus := some "No command or script defined", isError := true }, false) :=
  C9_missing_command_error c9St 0 { name := "Empty" } ClipOutcome.err (SpawnOutcome.err "e")
    rfl rfl rfl

/-- C6: when a cmd-backed invocation spawns its shell successfully, the
invoked slot becomes running with the new child, and for every other slot
the running shell entry and the running script marker are unchanged, a
previously recorded Succeeded result is cleared, and any other recorded
result (in particular Failed) is unchanged. -/
theorem C6_shell_spawn_frame (st : AppSt) (index : Nat) (cfg : CommandConfig)
    (c s : String) (clip : ClipOutcome) (child : Nat)
    (h1 : st.commands[index]? = some cfg) (h2 : cfg.run = none) (h3 : cfg.cmd = some c)
    (h4 : expandClipboard c clip = some s) :
    ∀ st', st' = (run_command st index clip (SpawnOutcome.ok child)).1 →
      st'.runningProcesses index = some child ∧
      ∀ j, j ≠ index →
        st'.runningProcesses j = st.runningProcesses j ∧
        st'.runningScripts j = st.runningScripts j ∧
        (st.processResults j = some ProcessResult.Success → st'.processResults j = none) ∧
        (st.processResults j ≠ some ProcessResult.Success →
          st'.processResults j = st.processResults j) := by
  intro st' hst'
  subst hst'
  simp only [run_command, h1, h2, h3, h4]
  refine ⟨by simp, ?_⟩
  intro j hj
  refine ⟨by simp [hj], by trivial, ?_, ?_⟩
  · intro hr
    simp [hr]
  · intro hr
    simp [hr]

/-- Application state used by the C6 witness: slot 1 succeeded, slot 2
failed, slot 3 has a running shell child, slot 4 has a running script. -/
def c6St : AppSt :=
  { commands := [{ name := "Build", cmd := some "make" }]
    runningProcesses := fun i => if i = 3 then some 9 else none
    processResults := fun i =>
      if i = 1 then some ProcessResult.Success
      else if i = 2 then some ProcessResult.Failed
      else none
    runningScripts := fun i => i == 4
    lastStatus := none
    isError := false }

/-- C6 witness: the frame condition evaluated at a concrete state — the
other slot's success is cleared, its failure, running child and running
script marker survive, and slot 0 is running the new child. -/
theorem C6_shell_spawn_frame_witness :
    (run_command c6St 0 ClipOutcome.err (SpawnOutcome.ok 7)).1.runningProcesses 0 = some 7 ∧
    (run_command c6St 0 ClipOutcome.err (SpawnOutcome.ok 7)).1.processResults 1 = none ∧
    (run_command c6St 0 ClipOutcome.err (SpawnOutcome.ok 7)).1.processResults 2 =
      some ProcessResult.Failed ∧
    (run_command c6St 0 ClipOutcome.err (SpawnOutcome.ok 7)).1.runningProcesses 3 = some 9 ∧
    (run_command c6St 0 ClipOutcome.err (SpawnOutcome.ok 7)).1.runningScripts 4 = true := by
  have h := C6_shell_spawn_frame c6St 0 { name := "Build", cmd := some "make" } "make" "make"
    ClipOutcome.err 7 rfl rfl rfl rfl _ rfl
  refine ⟨h.1, ?_, ?_, ?_, ?_⟩
  · exact (h.2 1 (by decide)).2.2.1 rfl
  · exact ((h.2 2 (by decide)).2.2.2 (by decide)).trans rfl
  · exact ((h.2 3 (by decide)).1).trans rfl
  · exact ((h.2 4 (by decide)).2.1).trans rfl

/-- Full path of an at-referenced script as computed by run_script: used
as-is when absolute, otherwise joined onto the invocation's working
directory. -/
def scriptFullPath (script cwd : String) : String :=
  if strStarts (strDrop script 1) "/" then strDrop script 1
  else joinPath cwd (strDrop script 1)

/-- C8: for an at-prefixed input, the referenced path is resolved relative
to the working directory (or taken as-is when absolute); a failed read
yields a failure with an explanatory message and nothing is executed, while
a successful read hands the engine the file's content together with the
directory containing the script file (falling back to the original working
directory only when the path has no parent). -/
theorem C8_script_file_reference (script cwd : String) (fs : String → Option String)
    (h : strStarts script "@" = true) :
    (fs (scriptFullPath script cwd) = none →
      run_script_dispatch script cwd fs =
        Except.error ("Failed to read script file: " ++ scriptFullPath script cwd)) ∧
    (∀ content, fs (scriptFullPath script cwd) = some content →
      run_script_dispatch script cwd fs =
        Except.ok (content, (parentDir (scriptFullPath script cwd)).getD cwd)) := by
  constructor
  · intro hf
    simp only [run_script_dispatch, scriptFullPath, h, if_true] at hf ⊢
    simp [hf]
  · intro content hf
    simp only [run_script_dispatch, scriptFullPath, h, if_true] at hf ⊢
    simp [hf]

/-- Filesystem used by the C8 witness: a single script file. -/
def c8Fs : String → Option String := fun p =>
  if p = "/w/s/x.rhai" then some "print(1)" else none

/-- C8 witness: a relative reference from working directory /w resolves to
/w/s/x.rhai and the engine receives the containing directory /w/s, not the
original working directory. -/
theorem C8_script_file_reference_witness :
    run_script_dispatch "@s/x.rhai" "/w" c8Fs = Except.ok ("print(1)", "/w/s") := by
  have h := (C8_script_file_reference "@s/x.rhai" "/w" c8Fs (by decide)).2 "print(1)" (by decide)
  have he : (parentDir (scriptFullPath "@s/x.rhai" "/w")).getD "/w" = "/w/s" := by decide
  rw [he] at h
  exact h

/-- Shape of an invocation's effect on the running-script markers: either no
worker is dispatched and the markers are unchanged, or a worker is
dispatched, in which case the invoked slot's marker was clear and becomes
set while every other marker is unchanged. -/
theorem run_command_scripts_shape (st : AppSt) (index : Nat) (clip : ClipOutcome)
    (spawn : SpawnOutcome) :
    ((run_command st index clip spawn).2 = false ∧
      (run_command st index clip spawn).1.runningScripts = st.runningScripts) ∨
    ((run_command st index clip spawn).2 = true ∧
      st.runningScripts index = false ∧
      (run_command st index clip spawn).1.runningScripts =
        fun i => if i = index then true else st.runningScripts i) := by
  cases hcm : st.commands[index]? with
  | none =>
    exact Or.inl ⟨by simp [run_command, hcm], by simp [run_command, hcm]⟩
  | some cfg =>
    cases hr : cfg.run with
    | some s =>
      cases hg : st.runningScripts index with
      | true =>
        exact Or.inl ⟨by simp [run_command, hcm, hr, hg], by simp [run_command, hcm, hr, hg]⟩
      | false =>
        exact Or.inr ⟨by simp [run_command, hcm, hr, hg], rfl,
          by simp [run_command, hcm, hr, hg]⟩
    | none =>
      cases hc : cfg.cmd with
      | some c =>
        cases he : expandClipboard c clip with
        | none =>
          exact Or.inl ⟨by simp [run_command, hcm, hr, hc, he],
            by simp [run_command, hcm, hr, hc, he]⟩
        | some s2 =>
          cases spawn with
          | ok child =>
            exact Or.inl ⟨by simp [run_command, hcm, hr, hc, he],
              by simp [run_command, hcm, hr, hc, he]⟩
          | err e =>
            exact Or.inl ⟨by simp [run_command, hcm, hr, hc, he],
              by simp [run_command, hcm, hr, hc, he]⟩
      | none =>
        exact Or.inl ⟨by simp [run_command, hcm, hr, hc], by simp [run_command, hcm, hr, hc]⟩

/-- Invariant of the execution model: every slot has at most one script
worker in flight, and an in-flight worker implies the slot's running-script
marker is set. -/
def TaskInv (s : Sys) : Prop :=
  ∀ i, s.tasks.count i ≤ 1 ∧ (i ∈ s.tasks → s.app.runningScripts i = true)

/-- Preservation of the task invariant by every event of the execution
model. -/
theorem step_taskInv (s : Sys) (e : Ev) (h : TaskInv s) : TaskInv (step s e) := by
  cases e with
  | invoke index clip spawn =>
    rcases run_command_scripts_shape s.app index clip spawn with ⟨hd, hscr⟩ | ⟨hd, hclear, hscr⟩
    · have ht : (step s (Ev.invoke index clip spawn)).tasks = s.tasks := by
        simp [step, hd]
      have ha : (step s (Ev.invoke index clip spawn)).app =
          (run_command s.app index clip spawn).1 := by
        simp [step]
      intro i
      rw [ht, ha, hscr]
      exact h i
    · have ht : (step s (Ev.invoke index clip spawn)).tasks = index :: s.tasks := by
        simp [step, hd]
      have ha : (step s (Ev.invoke index clip spawn)).app =
          (run_command s.app index clip spawn).1 := by
        simp [step]
      intro i
      rw [ht, ha, hscr]
      constructor
      · by_cases hi : i = index
        · subst hi
          have h0 : i ∉ s.tasks := by
            intro hm
            have := (h i).2 hm
            rw [this] at hclear
            cases hclear
          have hz : s.tasks.count i = 0 := List.count_eq_zero.mpr h0
          simp [List.count_cons, hz]
        · have := (h i).1
          simp [List.count_cons, hi]
          omega
      · intro hi
        rcases List.mem_cons.mp hi with hi | hi
        · subst hi
          simp
        · have := (h i).2 hi
          by_cases hii : i = index
          · simp [hii]
          · simp [hii, this]
  | finishScript index success msg =>
    by_cases hm : s.tasks.contains index
    · have hstep : step s (Ev.finishScript index success msg) =
          { app := applyScriptResult s.app index success msg,
            tasks := s.tasks.erase index } := by
        simp only [step]
        rw [if_pos hm]
      rw [hstep]
      intro i
      constructor
      · exact le_trans ((List.erase_sublist index s.tasks).count_le i) (h i).1
      · intro hi
        have himem : i ∈ s.tasks := List.mem_of_mem_erase hi
        have htrue := (h i).2 himem
        by_cases hii : i = index
        · exfalso
          subst hii
          have hpos : 0 < (s.tasks.erase i).count i := List.count_pos_iff.mpr hi
          have hself : (s.tasks.erase i).count i = s.tasks.count i - 1 :=
            List.count_erase_self i s.tasks
          have := (h i).1
          omega
        · simp [applyScriptResult, hii, htrue]
    · have hstep : step s (Ev.finishScript index success msg) = s := by
        simp only [step]
        rw [if_neg hm]
      rw [hstep]
      exact h
  | finishProcess index success =>
    cases hp : s.app.runningProcesses index with
    | some child =>
      have hstep : step s (Ev.finishProcess index success) =
          { app := applyProcessResult s.app index success, tasks := s.tasks } := by
        simp [step, hp]
      rw [hstep]
      intro i
      refine ⟨(h i).1, fun hi => ?_⟩
      simpa [applyProcessResult] using (h i).2 hi
    | none =>
      have hstep : step s (Ev.finishProcess index success) = s := by
        simp [step, hp]
      rw [hstep]
      exact h

/-- The task invariant holds along every event sequence. -/
theorem taskInv_foldl (evs : List Ev) (s : Sys) (h : TaskInv s) :
    TaskInv (evs.foldl step s) := by
  induction evs generalizing s with
  | nil => exact h
  | cons e rest ih => exact ih _ (step_taskInv s e h)

/-- C7: a second invocation of a script-backed slot that is already running
changes no state and dispatches no second worker (a silent no-op), and
consequently along every sequence of invocations and reconciliations from a
start state with no worker in flight, at most one script worker per slot is
ever in flight. -/
theorem C7_no_double_dispatch (st : AppSt) (index : Nat) (cfg : CommandConfig)
    (scr : String) (clip : ClipOutcome) (spawn : SpawnOutcome)
    (h1 : st.commands[index]? = some cfg) (h2 : cfg.run = some scr)
    (h3 : st.runningScripts index = true) :
    run_command st index clip spawn = (st, false) ∧
    ∀ (s0 : Sys), s0.tasks = [] → ∀ (evs : List Ev) (i : Nat),
      (evs.foldl step s0).tasks.count i ≤ 1 := by
  constructor
  · simp [run_command, h1, h2, h3]
  · intro s0 h0 evs i
    have hinv : TaskInv s0 := by
      intro j
      rw [h0]
      simp
    exact ((taskInv_foldl evs s0 hinv) i).1

/-- Application state used by the C7 witness: slot 0 is a script command
already running. -/
def c7St : AppSt :=
  { commands := [{ name := "Job", run := some "print(1)" }]
    runningProcesses := fun _ => none
    processResults := fun _ => none
    runningScripts := fun i => i == 0
    lastStatus := none
    isError := false }

/-- C7 witness: the no-op equation and the in-flight bound evaluated at a
concrete state and event sequence. -/
theorem C7_no_double_dispatch_witness :
    run_command c7St 0 ClipOutcome.err (SpawnOutcome.err "e") = (c7St, false) ∧
    (([Ev.invoke 0 ClipOutcome.err (SpawnOutcome.err "e")].foldl step
        { app := c7St, tasks := [] }).tasks.count 0 ≤ 1) := by
  have h := C7_no_double_dispatch c7St 0 { name := "Job", run := some "print(1)" } "print(1)"
    ClipOutcome.err (SpawnOutcome.err "e") rfl rfl rfl
  exact ⟨h.1, h.2 { app := c7St, tasks := [] } rfl _ 0⟩

/-- Shift of the detection scan's start index: scanning from index i yields
the scan from zero with i added to the result. -/
theorem detectFrom_shift (home wd : String) (fs : String → Bool) (l : List Preset) (i : Nat) :
    detectFrom home fs wd i l =
      (detectFrom home fs wd 0 l).map (fun j => i + j) := by
  induction l generalizing i with
  | nil => simp [detectFrom]
  | cons p rest ih =>
    cases hm : presetMatches home fs wd p with
    | true => simp [detectFrom, hm]
    | false =>
      simp only [detectFrom, hm, Bool.false_eq_true, if_false]
      rw [ih (i + 1), ih 1, Option.map_map]
      cases detectFrom home fs wd 0 rest with
      | none => simp
      | some k =>
        simp [Function.comp]
        try omega

/-- C4: preset detection returns the index of the first preset in list order
whose detection rule (marker-file existence, else the tilde-expanded
cwd-pattern with trailing-star prefix match or exact equality) is satisfied,
and returns none exactly when no preset's rule is satisfied; in particular,
when two presets both match, the earlier index is returned. -/
theorem C4_detect_first_match (home wd : String) (fs : String → Bool) (ps : List Preset) :
    (∀ i : Nat, detect_preset_idx home fs wd ps = some i ↔
      ((∃ p, ps[i]? = some p ∧ presetMatches home fs wd p = true) ∧
       ∀ j, j < i → ∀ q, ps[j]? = some q → presetMatches home fs wd q = false)) ∧
    (detect_preset_idx home fs wd ps = none ↔
      ∀ (j : Nat) (q : Preset), ps[j]? = some q → presetMatches home fs wd q = false) := by
  induction ps with
  | nil =>
    constructor
    · intro i
      simp [detect_preset_idx, detectFrom]
    · simp [detect_preset_idx, detectFrom]
  | cons p rest ih =>
    have hshift : detect_preset_idx home fs wd (p :: rest) =
        if presetMatches home fs wd p then some 0
        else (detect_preset_idx home fs wd rest).map (fun j => 1 + j) := by
      unfold detect_preset_idx
      cases hm : presetMatches home fs wd p with
      | true => simp [detectFrom, hm]
      | false =>
        simp only [detectFrom, hm, Bool.false_eq_true, if_false]
        exact detectFrom_shift home wd fs rest 1
    cases hm : presetMatches home fs wd p with
    | true =>
      rw [hm] at hshift
      simp only [if_true] at hshift
      constructor
      · intro i
        rw [hshift]
        constructor
        · intro hsome
          have hi : i = 0 := by
            have := Option.some.inj hsome
            omega
          subst hi
          exact ⟨⟨p, by simp, hm⟩, by intro j hj; omega⟩
        · rintro ⟨⟨q, hq, hqm⟩, hmin⟩
          by_cases hi : i = 0
          · subst hi; rfl
          · exfalso
            have h0 : (0 : Nat) < i := Nat.pos_of_ne_zero hi
            have hz := hmin 0 h0 p (by simp)
            rw [hz] at hm
            cases hm
      · rw [hshift]
        constructor
        · intro hnone
          cases hnone
        · intro hall
          have hz := hall 0 p (by simp)
          rw [hz] at hm
          cases hm
    | false =>
      rw [hm] at hshift
      simp only [Bool.false_eq_true, if_false] at hshift
      obtain ⟨ihS, ihN⟩ := ih
      constructor
      · intro i
        rw [hshift]
        cases i with
        | zero =>
          constructor
          · intro hsome
            exfalso
            cases hd : detect_preset_idx home fs wd rest with
            | none => rw [hd] at hsome; simp at hsome
            | some k => rw [hd] at hsome; simp at hsome; try omega
          · rintro ⟨⟨q, hq, hqm⟩, _⟩
            exfalso
            have hq' : p = q := by simpa using hq
            rw [← hq'] at hqm
            rw [hqm] at hm
            cases hm
        | succ i' =>
          have hmap : ((detect_preset_idx home fs wd rest).map (fun j => 1 + j)
              = some (i' + 1)) ↔ detect_preset_idx home fs wd rest = some i' := by
            cases hd : detect_preset_idx home fs wd rest with
            | none => simp
            | some k => simp; omega
          rw [hmap, ihS i']
          constructor
          · rintro ⟨⟨q, hq, hqm⟩, hmin⟩
            refine ⟨⟨q, by simpa using hq, hqm⟩, ?_⟩
            intro j hj q' hq'
            cases j with
            | zero =>
              have : p = q' := by simpa using hq'
              rw [← this]
              exact hm
            | succ j' =>
              exact hmin j' (by omega) q' (by simpa using hq')
          · rintro ⟨⟨q, hq, hqm⟩, hmin⟩
            refine ⟨⟨q, by simpa using hq, hqm⟩, ?_⟩
            intro j hj q' hq'
            exact hmin (j + 1) (by omega) q' (by simpa using hq')
      · rw [hshift]
        have hmapn : ((detect_preset_idx home fs wd rest).map (fun j => 1 + j) = none)
            ↔ detect_preset_idx home fs wd rest = none := by
          cases hd : detect_preset_idx home fs wd rest <;> simp
        rw [hmapn, ihN]
        constructor
        · intro hall j q hq
          cases j with
          | zero =>
            have : p = q := by simpa using hq
            rw [← this]
            exact hm
          | succ j' => exact hall j' q (by simpa using hq)
        · intro hall j q hq
          exact hall (j + 1) q (by simpa using hq)

/-- Preset list used by the C4 witness: Node and Rust marker-file presets
and a path-pattern preset. -/
def c4Presets : List Preset :=
  [{ name := "Node", detect_file := some "package.json" },
   { name := "Rust", detect_file := some "Cargo.toml" },
   { name := "Here", cwd_pattern := some "/proj" }]

/-- Filesystem used by the C4 witness: only /proj/Cargo.toml exists, and the
working directory /proj also matches the third preset's pattern exactly. -/
def c4Fs : String → Bool := fun p => decide (p = "/proj/Cargo.toml")

/-- C4 witness: at the concrete working directory, detection evaluates to
index 1 (both index 1 and index 2 match; the earlier one is returned, and
index 0 does not match). -/
theorem C4_detect_first_match_witness :
    (∃ p, c4Presets[1]? = some p ∧ presetMatches "/home/u" c4Fs "/proj" p = true) ∧
    ∀ j, j < 1 → ∀ q, c4Presets[j]? = some q →
      presetMatches "/home/u" c4Fs "/proj" q = false :=
  ((C4_detect_first_match "/home/u" "/proj" c4Fs c4Presets).1 1).mp (by decide)

/-- Combination of an accumulated survivor with a new same-key entry, as the
dedup loop does: the existing entry survives unless the new entry's source
rank is strictly higher. -/
def mergeOpt (acc : Option ResolvedPreset) (r : ResolvedPreset) : Option ResolvedPreset :=
  match acc with
  | none => some r
  | some a => if r.source.rank ≤ a.source.rank then some a else some r

/-- Survivor of a sequence of same-key entries processed in order. -/
def pickAcc : Option ResolvedPreset → List ResolvedPreset → Option ResolvedPreset
  | acc, [] => acc
  | acc, r :: rest => pickAcc (mergeOpt acc r) rest

theorem assocFind_assocSet (m : List (String × ResolvedPreset)) (k k' : String)
    (v : ResolvedPreset) :
    assocFind (assocSet m k v) k' = if k' = k then some v else assocFind m k' := by
  induction m with
  | nil =>
    by_cases h : k' = k
    · subst h
      simp [assocSet, assocFind]
    · simp [assocSet, assocFind, h, Ne.symm h]
  | cons kv rest ih =>
    obtain ⟨k0, v0⟩ := kv
    by_cases h0 : k0 = k
    · subst h0
      by_cases h1 : k' = k0
      · subst h1
        simp [assocSet, assocFind]
      · simp [assocSet, assocFind, h1, Ne.symm h1]
    · by_cases h1 : k0 = k'
      · subst h1
        simp [assocSet, assocFind, h0]
      · simp [assocSet, assocFind, h0, h1, ih]

theorem assocFind_dedupStep (m : List (String × ResolvedPreset)) (r : ResolvedPreset)
    (key : String) :
    assocFind (dedupStep m r) key =
      if lowerName r = key then mergeOpt (assocFind m key) r else assocFind m key := by
  simp only [dedupStep]
  cases hf : assocFind m (lowerName r) with
  | none =>
    simp only [hf]
    rw [assocFind_assocSet]
    by_cases hk : lowerName r = key
    · subst hk
      simp [hf, mergeOpt]
    · simp [hk]
      intro hh
      exact absurd hh.symm hk
  | some a =>
    simp only [hf]
    by_cases hle : r.source.rank ≤ a.source.rank
    · simp only [hle, if_true]
      by_cases hk : lowerName r = key
      · subst hk
        simp [hf, mergeOpt, hle]
      · simp [hk]
    · simp only [hle, if_false]
      rw [assocFind_assocSet]
      by_cases hk : lowerName r = key
      · subst hk
        simp [hf, mergeOpt, hle]
      · simp [hk]
        intro hh
        exact absurd hh.symm hk

theorem assocFind_foldl_dedup (l : List ResolvedPreset)
    (m : List (String × ResolvedPreset)) (key : String) :
    assocFind (l.foldl dedupStep m) key =
      pickAcc (assocFind m key) (l.filter (fun r => decide (lowerName r = key))) := by
  induction l generalizing m with
  | nil => simp [pickAcc]
  | cons r rest ih =>
    simp only [List.foldl_cons, List.filter_cons]
    rw [ih]
    by_cases hk : lowerName r = key
    · rw [assocFind_dedupStep]
      simp [hk, pickAcc]
    · rw [assocFind_dedupStep]
      simp [hk, pickAcc]

/-- Characterization of the dedup map's lookups: the survivor for a key is
the fold of the priority-merge over the key's entries in collection order. -/
theorem assocFind_dedupMap (l : List ResolvedPreset) (key : String) :
    assocFind (dedupMap l) key =
      pickAcc none (l.filter (fun r => decide (lowerName r = key))) := by
  have h := assocFind_foldl_dedup l [] key
  simpa [dedupMap, assocFind] using h

/-- Well-formedness of the dedup map: every entry's key is the lower-cased
name of its value. -/
def WFmap (m : List (String × ResolvedPreset)) : Prop :=
  ∀ kv ∈ m, kv.1 = lowerName kv.2

theorem wfmap_assocSet {m : List (String × ResolvedPreset)} {k : String}
    {v : ResolvedPreset} (h : WFmap m) (hk : k = lowerName v) : WFmap (assocSet m k v) := by
  induction m with
  | nil =>
    intro kv hkv
    simp only [assocSet, List.mem_singleton] at hkv
    subst hkv
    exact hk
  | cons kv0 rest ih =>
    obtain ⟨k0, v0⟩ := kv0
    intro kv hkv
    by_cases h0 : k0 = k
    · simp only [assocSet, if_pos h0] at hkv
      rcases List.mem_cons.mp hkv with hkv | hkv
      · subst hkv
        exact hk
      · exact h kv (List.mem_cons_of_mem _ hkv)
    · simp only [assocSet, if_neg h0] at hkv
      rcases List.mem_cons.mp hkv with hkv | hkv
      · subst hkv
        exact h _ (List.mem_cons_self _ _)
      · exact ih (fun kv2 h2 => h kv2 (List.mem_cons_of_mem _ h2)) kv hkv

theorem keys_assocSet_of_mem {m : List (String × ResolvedPreset)} {k : String}
    (v : ResolvedPreset) (h : k ∈ m.map Prod.fst) :
    (assocSet m k v).map Prod.fst = m.map Prod.fst := by
  induction m with
  | nil => cases h
  | cons kv0 rest ih =>
    obtain ⟨k0, v0⟩ := kv0
    by_cases h0 : k0 = k
    · subst h0
      simp [assocSet]
    · simp only [List.map_cons, List.mem_cons] at h
      rcases h with h | h
      · exact absurd h.symm h0
      · simp [assocSet, h0, ih h]

theorem keys_assocSet_of_not_mem {m : List (String × ResolvedPreset)} {k : String}
    (v : ResolvedPreset) (h : k ∉ m.map Prod.fst) :
    (assocSet m k v).map Prod.fst = m.map Prod.fst ++ [k] := by
  induction m with
  | nil => simp [assocSet]
  | cons kv0 rest ih =>
    obtain ⟨k0, v0⟩ := kv0
    simp only [List.map_cons, List.mem_cons] at h
    push_neg at h
    obtain ⟨h1, h2⟩ := h
    have h0 : ¬(k0 = k) := fun he => h1 he.symm
    simp [assocSet, h0, ih h2]

theorem nodup_keys_assocSet {m : List (String × ResolvedPreset)} {k : String}
    {v : ResolvedPreset} (h : (m.map Prod.fst).Nodup) :
    ((assocSet m k v).map Prod.fst).Nodup := by
  by_cases hk : k ∈ m.map Prod.fst
  · rw [keys_assocSet_of_mem v hk]
    exact h
  · rw [keys_assocSet_of_not_mem v hk]
    rw [List.nodup_append]
    refine ⟨h, List.nodup_singleton k, ?_⟩
    intro a ha hb
    simp only [List.mem_singleton] at hb
    subst hb
    exact hk ha

theorem wfmap_dedupStep {m : List (String × ResolvedPreset)} {r : ResolvedPreset}
    (h : WFmap m) : WFmap (dedupStep m r) := by
  cases hf : assocFind m (lowerName r) with
  | none => simpa [dedupStep, hf] using wfmap_assocSet h rfl
  | some a =>
    by_cases hle : r.source.rank ≤ a.source.rank
    · simpa [dedupStep, hf, hle] using h
    · simpa [dedupStep, hf, hle] using wfmap_assocSet h rfl

theorem nodup_keys_dedupStep {m : List (String × ResolvedPreset)} {r : ResolvedPreset}
    (h : (m.map Prod.fst).Nodup) : ((dedupStep m r).map Prod.fst).Nodup := by
  cases hf : assocFind m (lowerName r) with
  | none => simpa [dedupStep, hf] using nodup_keys_assocSet (v := r) h
  | some a =>
    by_cases hle : r.source.rank ≤ a.source.rank
    · simpa [dedupStep, hf, hle] using h
    · simpa [dedupStep, hf, hle] using nodup_keys_assocSet (v := r) h

theorem wf_nodup_foldl (l : List ResolvedPreset) (m : List (String × ResolvedPreset))
    (hw : WFmap m) (hn : (m.map Prod.fst).Nodup) :
    WFmap (l.foldl dedupStep m) ∧ ((l.foldl dedupStep m).map Prod.fst).Nodup := by
  induction l generalizing m with
  | nil => exact ⟨hw, hn⟩
  | cons r rest ih => exact ih _ (wfmap_dedupStep hw) (nodup_keys_dedupStep hn)

theorem wf_nodup_dedupMap (l : List ResolvedPreset) :
    WFmap (dedupMap l) ∧ ((dedupMap l).map Prod.fst).Nodup := by
  simpa [dedupMap] using wf_nodup_foldl l [] (fun kv hkv => by cases hkv) (by simp)

theorem assocFind_mem {m : List (String × ResolvedPreset)} {k : String}
    {v : ResolvedPreset} (h : assocFind m k = some v) : (k, v) ∈ m := by
  induction m with
  | nil => simp [assocFind] at h
  | cons kv rest ih =>
    obtain ⟨k0, v0⟩ := kv
    by_cases h0 : k0 = k
    · simp only [assocFind, if_pos h0] at h
      have hv := Option.some.inj h
      subst h0
      rw [← hv]
      exact List.mem_cons_self _ _
    · simp only [assocFind, if_neg h0] at h
      exact List.mem_cons_of_mem _ (ih h)

theorem mem_assocFind {m : List (String × ResolvedPreset)} {k : String}
    {v : ResolvedPreset} (hn : (m.map Prod.fst).Nodup) (h : (k, v) ∈ m) :
    assocFind m k = some v := by
  induction m with
  | nil => cases h
  | cons kv rest ih =>
    obtain ⟨k0, v0⟩ := kv
    simp only [List.map_cons, List.nodup_cons] at hn
    rcases List.mem_cons.mp h with h | h
    · injection h with hk hv
      subst hk
      subst hv
      simp [assocFind]
    · have hk0 : k0 ≠ k := by
        intro he
        subst he
        exact hn.1 (List.mem_map_of_mem Prod.fst h)
      simp only [assocFind, if_neg hk0]
      exact ih hn.2 h

theorem pickAcc_some (l : List ResolvedPreset) :
    ∀ a : ResolvedPreset, ∃ v, pickAcc (some a) l = some v := by
  induction l with
  | nil => exact fun a => ⟨a, rfl⟩
  | cons r rest ih =>
    intro a
    simp only [pickAcc, mergeOpt]
    by_cases hle : r.source.rank ≤ a.source.rank
    · simpa [hle] using ih a
    · simpa [hle] using ih r

theorem pickAcc_none_ne {l : List ResolvedPreset} (h : l ≠ []) : pickAcc none l ≠ none := by
  cases l with
  | nil => exact absurd rfl h
  | cons r rest =>
    simp only [pickAcc, mergeOpt]
    obtain ⟨v, hv⟩ := pickAcc_some rest r
    simp [hv]

theorem insertBySource_perm (r : ResolvedPreset) (l : List ResolvedPreset) :
    (insertBySource r l).Perm (r :: l) := by
  induction l with
  | nil => exact List.Perm.refl _
  | cons y ys ih =>
    simp only [insertBySource]
    by_cases hle : y.source.rank ≤ r.source.rank
    · simp only [hle, if_true]
      exact (ih.cons y).trans (List.Perm.swap r y ys)
    · simp only [hle, if_false]
      exact List.Perm.refl _

theorem sortFold_perm (l : List ResolvedPreset) :
    ∀ acc : List ResolvedPreset,
      (l.foldl (fun a r => insertBySource r a) acc).Perm (l ++ acc) := by
  induction l with
  | nil => intro acc; simp
  | cons r rest ih =>
    intro acc
    simp only [List.foldl_cons, List.cons_append]
    have h1 := ih (insertBySource r acc)
    have h2 : (rest ++ insertBySource r acc).Perm (rest ++ (r :: acc)) :=
      (insertBySource_perm r acc).append_left rest
    exact h1.trans (h2.trans List.perm_middle)

theorem sortBySource_perm (l : List ResolvedPreset) : (sortBySource l).Perm l := by
  have h := sortFold_perm l []
  simpa [sortBySource] using h

theorem filterSplitPerm (p : ResolvedPreset → Bool) (l : List ResolvedPreset) :
    (l.filter p ++ l.filter (fun x => !p x)).Perm l := by
  induction l with
  | nil => simp
  | cons a t ih =>
    cases ha : p a with
    | true =>
      simp only [List.filter_cons, ha, Bool.not_true, if_true, cond_true]
      simpa using ih.cons a
    | false =>
      simp only [List.filter_cons, ha, Bool.not_false, cond_false]
      simp only [Bool.false_eq_true, if_false, if_true]
      exact List.perm_middle.trans (ih.cons a)

theorem resolve_presets_perm (rs : PresetResolver) :
    ((rs.resolve).presets).Perm (dedupValues rs.presets) := by
  simp only [PresetResolver.resolve]
  exact ((sortBySource_perm _).append (sortBySource_perm _)).trans
    (filterSplitPerm (fun r => r.preset.is_global) (dedupValues rs.presets))

theorem mem_resolve {rs : PresetResolver} {x : ResolvedPreset} :
    x ∈ (rs.resolve).presets ↔ x ∈ dedupValues rs.presets :=
  (resolve_presets_perm rs).mem_iff

theorem lower_values_eq_keys (m : List (String × ResolvedPreset)) (h : WFmap m) :
    (m.map Prod.snd).map lowerName = m.map Prod.fst := by
  induction m with
  | nil => rfl
  | cons kv rest ih =>
    simp only [List.map_cons]
    have h1 : lowerName kv.2 = kv.1 := (h kv (List.mem_cons_self _ _)).symm
    rw [h1, ih (fun kv2 h2 => h kv2 (List.mem_cons_of_mem _ h2))]

theorem nodup_lower_resolve (rs : PresetResolver) :
    (((rs.resolve).presets).map lowerName).Nodup := by
  obtain ⟨hw, hn⟩ := wf_nodup_dedupMap rs.presets
  have hperm := (resolve_presets_perm rs).map lowerName
  rw [hperm.nodup_iff]
  show ((dedupValues rs.presets).map lowerName).Nodup
  simp only [dedupValues]
  rw [lower_values_eq_keys _ hw]
  exact hn

/-- C10: resolution deduplicates without losing names — the resolved preset
list has pairwise-distinct lower-cased names, and a lower-cased name occurs
among the resolved presets exactly when it occurs among the collected
inputs. -/
theorem C10_resolve_dedup_invariant (rs : PresetResolver) :
    List.Pairwise (fun a b => lowerName a ≠ lowerName b) (rs.resolve).presets ∧
    ∀ key : String,
      (∃ r, r ∈ rs.presets ∧ lowerName r = key) ↔
      (∃ r, r ∈ (rs.resolve).presets ∧ lowerName r = key) := by
  obtain ⟨hw, hn⟩ := wf_nodup_dedupMap rs.presets
  constructor
  · exact List.pairwise_map.mp (nodup_lower_resolve rs)
  · intro key
    constructor
    · rintro ⟨r, hr, hkey⟩
      have hfil : r ∈ rs.presets.filter (fun x => decide (lowerName x = key)) :=
        List.mem_filter.mpr ⟨hr, by simp [hkey]⟩
      have hne : rs.presets.filter (fun x => decide (lowerName x = key)) ≠ [] := by
        intro h0
        rw [h0] at hfil
        cases hfil
      cases hv : assocFind (dedupMap rs.presets) key with
      | none =>
        rw [assocFind_dedupMap] at hv
        exact absurd hv (pickAcc_none_ne hne)
      | some v =>
        have hmem : (key, v) ∈ dedupMap rs.presets := assocFind_mem hv
        have hkv : key = lowerName v := hw (key, v) hmem
        refine ⟨v, ?_, hkv.symm⟩
        rw [mem_resolve]
        simp only [dedupValues]
        exact List.mem_map_of_mem Prod.snd hmem
    · rintro ⟨r, hr, hkey⟩
      have hv : r ∈ dedupValues rs.presets := mem_resolve.mp hr
      simp only [dedupValues] at hv
      obtain ⟨kv, hkv, hsnd⟩ := List.mem_map.mp hv
      have hfst : kv.1 = lowerName kv.2 := hw kv hkv
      have hkeq : kv.1 = key := by rw [hfst, hsnd, hkey]
      have hpair : ((key, r) : String × ResolvedPreset) ∈ dedupMap rs.presets := by
        have hkv2 : ((kv.1, kv.2) : String × ResolvedPreset) ∈ dedupMap rs.presets := by
          simpa using hkv
        rw [hkeq, hsnd] at hkv2
        exact hkv2
      have hfind : assocFind (dedupMap rs.presets) key = some r := mem_assocFind hn hpair
      rw [assocFind_dedupMap] at hfind
      cases hfl : rs.presets.filter (fun x => decide (lowerName x = key)) with
      | nil =>
        rw [hfl] at hfind
        cases hfind
      | cons x xs =>
        have hx : x ∈ rs.presets.filter (fun x => decide (lowerName x = key)) := by
          rw [hfl]
          exact List.mem_cons_self _ _
        obtain ⟨hx1, hx2⟩ := List.mem_filter.mp hx
        exact ⟨x, hx1, by simpa using hx2⟩

/-- C10 witness: the invariant instantiated at a concrete resolver holding a
duplicate-named preset pair. -/
theorem C10_resolve_dedup_invariant_witness :
    List.Pairwise (fun a b => lowerName a ≠ lowerName b)
      ((PresetResolver.new.add_global
        { window := WindowSettings.default
          presets := [{ name := "Rust" }, { name := "rust" }]
          commands := [] }).resolve).presets :=
  (C10_resolve_dedup_invariant _).1

/-- First collected entry of the C2 scenario: a Rust preset detecting
Cargo.toml. -/
def c2Rust1 : ResolvedPreset :=
  { preset := { name := "Rust", detect_file := some "Cargo.toml" }
    source := ConfigSource.Global }

/-- Second collected entry of the C2 counterexample: another Rust preset,
same Global source, detecting Cargo.lock. -/
def c2Rust2 : ResolvedPreset :=
  { preset := { name := "Rust", detect_file := some "Cargo.lock" }
    source := ConfigSource.Global }

/-- Resolver state of the C2 counterexample: two same-named entries with
equal source priority, the Cargo.lock one added later. -/
def c2Resolver : PresetResolver :=
  { presets := [c2Rust1, c2Rust2]
    window := WindowSettings.default
    explicit_preset := none }

/-- C2 counterexample: with two equal-priority entries sharing the key, the
surviving preset is the earlier-added Cargo.toml entry, not the later-added
Cargo.lock entry as the claim's equal-priority tie-break states. -/
theorem C2_equal_priority_later_loses_cex :
    (c2Resolver.resolve).presets = [c2Rust1] ∧
    c2Rust1.preset.detect_file = some "Cargo.toml" ∧
    c2Rust2.preset.detect_file = some "Cargo.lock" ∧
    c2Rust1 ≠ c2Rust2 := by
  refine ⟨by decide, rfl, rfl, by decide⟩

/-- Survivor of a two-entry key group as the dedup loop computes it: the
later entry only when its source rank is strictly higher, otherwise the
earlier entry. -/
def pairSurvivor (r1 r2 : ResolvedPreset) : ResolvedPreset :=
  if r1.source.rank < r2.source.rank then r2 else r1

/-- C2 (amended): when exactly two collected entries share a lower-cased
name key, the entry from the strictly higher-priority source survives, and
on equal priority the earlier-added entry survives; the survivor is the
unique resolved preset carrying that key. -/
theorem C2_dedup_pair_amended (rs : PresetResolver) (key : String)
    (r1 r2 : ResolvedPreset)
    (h : rs.presets.filter (fun r => decide (lowerName r = key)) = [r1, r2]) :
    assocFind (dedupMap rs.presets) key = some (pairSurvivor r1 r2) ∧
    pairSurvivor r1 r2 ∈ (rs.resolve).presets ∧
    ∀ r', r' ∈ (rs.resolve).presets → lowerName r' = key →
      r' = pairSurvivor r1 r2 := by
  have hfind : assocFind (dedupMap rs.presets) key = some (pairSurvivor r1 r2) := by
    rw [assocFind_dedupMap, h]
    simp only [pickAcc, mergeOpt, pairSurvivor]
    by_cases hle : r2.source.rank ≤ r1.source.rank
    · simp [hle, Nat.not_lt.mpr hle]
    · simp [hle, Nat.lt_of_not_le hle]
  obtain ⟨hw, hn⟩ := wf_nodup_dedupMap rs.presets
  have hmem : (key, pairSurvivor r1 r2) ∈ dedupMap rs.presets := assocFind_mem hfind
  have hout : pairSurvivor r1 r2 ∈ (rs.resolve).presets := by
    rw [mem_resolve]
    simp only [dedupValues]
    exact List.mem_map_of_mem Prod.snd hmem
  refine ⟨hfind, hout, ?_⟩
  intro r' hr' hkey
  have hv : r' ∈ dedupValues rs.presets := mem_resolve.mp hr'
  simp only [dedupValues] at hv
  obtain ⟨kv, hkv, hsnd⟩ := List.mem_map.mp hv
  have hfst : kv.1 = lowerName kv.2 := hw kv hkv
  have hkeq : kv.1 = key := by rw [hfst, hsnd, hkey]
  have hpair : ((key, r') : String × ResolvedPreset) ∈ dedupMap rs.presets := by
    have hkv2 : ((kv.1, kv.2) : String × ResolvedPreset) ∈ dedupMap rs.presets := by
      simpa using hkv
    rw [hkeq, hsnd] at hkv2
    exact hkv2
  have hfind2 : assocFind (dedupMap rs.presets) key = some r' := mem_assocFind hn hpair
  rw [hfind] at hfind2
  exact (Option.some.inj hfind2).symm

/-- Project-sourced Rust entry used by the C2 witness. -/
def c2wProject : ResolvedPreset :=
  { preset := { name := "Rust", detect_file := some "Cargo.lock" }
    source := ConfigSource.Project }

/-- Resolver state of the C2 witness: the specification's own scenario — a
Global Cargo.toml Rust preset and a Project Cargo.lock Rust preset. -/
def c2wResolver : PresetResolver :=
  { presets := [c2Rust1, c2wProject]
    window := WindowSettings.default
    explicit_preset := none }

/-- C2 witness: the amended theorem evaluated at the specification's
scenario; the Project entry (strictly higher priority) survives. -/
theorem C2_dedup_pair_amended_witness :
    assocFind (dedupMap c2wResolver.presets) "rust" =
      some (pairSurvivor c2Rust1 c2wProject) ∧
    pairSurvivor c2Rust1 c2wProject ∈ (c2wResolver.resolve).presets := by
  have h := C2_dedup_pair_amended c2wResolver "rust" c2Rust1 c2wProject (by decide)
  exact ⟨h.1, h.2.1⟩

end LaunchBar
